import Mathlib

/-!
# jfind scanner — verification of the Discovery/Evaluation/Classification engine

Shallow embedding of the jfind Java-runtime scanner (Go) and proofs about it.

The repository ships several revisions of the scanner side by side; where two
revisions of a function exist, the embedding below uses the newest one (the
revision that matches the changelog entry about platform info, the golangci
configuration referring to `post.go`, and the task-based build files), and the
superseded revision is embedded under a `_main` suffix for comparison:

* `parseJavaVersion`, `ParseJavaProperties` data — `src/scanner/java_properties.go`
* `checkLicenseRequirement` — `src/scanner/java_license_check.go`
* `isJavaExecutable`, `isExecutable` — `src/scanner/utils.go:71-81`
  (current; the older `src/scanner/main.go:107-122` revision is
  `isJavaExecutable_main` / `isExecutable_main`)
* `handleDirectory`, `evaluateFile`, `Find` — `src/scanner/utils.go:494-564`
  (current; the older `src/scanner/main.go:220-301` revision is embedded with a
  `_main` suffix)
* `createRuntimeJSON`, `createMetaInfo`, `handleJSONOutput` —
  `src/scanner/main.go:380-482` (identical logic in every revision)

Go strings are byte sequences; all strings relevant here are ASCII, and the
embedding models them as Lean `String`/`List Char`, where the two views agree.
Go `int` is modelled as 64-bit (`Int` with explicit clamping where Go clamps),
matching the build targets (amd64/arm64 only).
-/

namespace JFind

/-! ## Go standard library fragments

Structurally recursive char-list versions of the `strings`/`strconv` functions
the scanner uses, so that concrete instances reduce inside the kernel. -/

/-- Go `strings.Contains(s, sub)`: `sub` occurs as a contiguous substring of `s`. -/
def strContains (s sub : String) : Bool :=
  (s.toList.tails).any (fun t => sub.toList.isPrefixOf t)

/-- Go `strings.ToLower` restricted to ASCII (all strings compared by the
scanner are ASCII). -/
def goToLower (s : String) : String :=
  ⟨s.toList.map Char.toLower⟩

/-- Go `strings.Split(s, sep)` for a one-character separator (the scanner only
splits on `"."`), on the char-list view. `Split`(\"\") = [\"\"]. -/
def splitOnChar (sep : Char) : List Char → List (List Char)
  | [] => [[]]
  | c :: cs =>
    let r := splitOnChar sep cs
    if c = sep then [] :: r
    else
      match r with
      | [] => [[c]]
      | h :: t => (c :: h) :: t

/-- The suffix of `cs` after the first occurrence of `c`
(Go `s[strings.Index(s, "_")+1:]` when the index is not `-1`). -/
def afterFirstChar (c : Char) : List Char → Option (List Char)
  | [] => none
  | d :: ds => if d = c then some ds else afterFirstChar c ds

/-- Largest value of Go's 64-bit `int`. -/
def int64Max : Int := 9223372036854775807

/-- Smallest value of Go's 64-bit `int`. -/
def int64Min : Int := -9223372036854775808

/-- Decimal value of a digit list. -/
def digitsToNat (cs : List Char) : Nat :=
  cs.foldl (fun a c => a * 10 + (c.toNat - 48)) 0

/-- The optional-sign prefix handling of Go `strconv.ParseInt`: returns the
negativity flag and the remaining characters. -/
def stripSign (cs : List Char) : Bool × List Char :=
  match cs with
  | '-' :: t => (true, t)
  | '+' :: t => (false, t)
  | t => (false, t)

/-- Go `strconv.Atoi(s)`, reduced to the value component that the scanner keeps
with `n, _ := strconv.Atoi(s)`.  Per the `strconv` documentation: a leading
`+`/`-` sign is allowed; if the remainder is empty or contains a non-digit the
error is `ErrSyntax` and the returned value is `0`; if the value does not fit
in a 64-bit `int` the error is `ErrRange` and the returned value is the
nearest 64-bit boundary (not `0`). -/
def goAtoi (cs : List Char) : Int :=
  let p := stripSign cs
  if !p.2.isEmpty && p.2.all Char.isDigit then
    let v : Int := if p.1 then -(digitsToNat p.2 : Int) else (digitsToNat p.2 : Int)
    if v > int64Max then int64Max
    else if v < int64Min then int64Min
    else v
  else 0

/-- A string parses as a 64-bit integer without any error (syntax and range):
this is "integer parsing succeeds" for Go `strconv.Atoi`. -/
def atoiOk (cs : List Char) : Bool :=
  let p := stripSign cs
  let v : Int := if p.1 then -(digitsToNat p.2 : Int) else (digitsToNat p.2 : Int)
  !p.2.isEmpty && p.2.all Char.isDigit && decide (int64Min ≤ v) && decide (v ≤ int64Max)

/-! ## VersionTextParser (`src/scanner/java_properties.go`) -/

/-- `parseJavaVersion` (`src/scanner/java_properties.go:54-77`): extract
`(major, update)` from a Java version string.  Legacy scheme for strings
beginning with `"1."`; modern scheme otherwise. -/
def parseJavaVersion (version : String) : Int × Int :=
  let cs := version.toList
  if ['1', '.'].isPrefixOf cs then
    let parts := splitOnChar '.' cs
    let major := if parts.length ≥ 2 then goAtoi (parts.getD 1 []) else 0
    let update :=
      match afterFirstChar '_' cs with
      | some rest => goAtoi rest
      | none => 0
    (major, update)
  else
    let parts := splitOnChar '.' cs
    let major := if parts.length ≥ 1 then goAtoi (parts.getD 0 []) else 0
    let update := if parts.length ≥ 3 then goAtoi (parts.getD 2 []) else 0
    (major, update)

/-- `JavaProperties` (`src/scanner/java_properties.go:10-16`). -/
structure JavaProperties where
  version : String := ""
  vendor : String := ""
  runtimeName : String := ""
  major : Int := 0
  update : Int := 0
deriving Repr, DecidableEq

/-! ## LicenseRuleEngine (`src/scanner/java_license_check.go`) -/

/-- `JavaRuntimeJSON` (`src/scanner/main.go:49-59`). -/
structure JavaRuntimeJSON where
  javaExecutable : String := ""
  javaRuntime : String := ""
  javaVendor : String := ""
  isOracle : Bool := false
  javaVersion : String := ""
  versionMajor : Int := 0
  versionUpdate : Int := 0
  execFailed : Bool := false
  requireLicense : Option Bool := none
deriving Repr, DecidableEq

/-- `checkLicenseRequirement` (`src/scanner/java_license_check.go:6-85`): the
method mutating `j.RequireLicense` is embedded as a function returning the
updated record. -/
def checkLicenseRequirement (j : JavaRuntimeJSON) : JavaRuntimeJSON :=
  if !j.isOracle then
    { j with requireLicense := none }
  else if j.javaRuntime ≠ "" ∧ strContains (goToLower j.javaRuntime) "openjdk" then
    { j with requireLicense := some false }
  else if j.javaRuntime = "OpenJDK Runtime Environment" then
    { j with requireLicense := some false }
  else if j.javaRuntime ≠ "" ∧ strContains (goToLower j.javaRuntime) "commercial" then
    { j with requireLicense := some true }
  else if j.versionMajor = 7 then
    if j.versionUpdate ≤ 80 then { j with requireLicense := some false }
    else { j with requireLicense := some true }
  else if j.versionMajor = 8 then
    if j.versionUpdate ≤ 202 then { j with requireLicense := some false }
    else { j with requireLicense := some true }
  else if j.versionMajor = 11 then
    { j with requireLicense := some true }
  else if j.versionMajor = 17 then
    if j.versionUpdate ≥ 13 then { j with requireLicense := some true }
    else { j with requireLicense := some false }
  else if 18 ≤ j.versionMajor ∧ j.versionMajor ≤ 20 then
    { j with requireLicense := some false }
  else if j.versionMajor ≥ 21 then
    { j with requireLicense := some false }
  else
    { j with requireLicense := some true }

/-- The licensing rule table exactly as the specification states it (§4.3),
written from the spec's words, to be compared with `checkLicenseRequirement`:
first match wins. -/
def specLicenseRequired (runtimeName : String) (major update : Int) : Bool :=
  if strContains (goToLower runtimeName) "openjdk"
      ∨ runtimeName = "OpenJDK Runtime Environment" then false
  else if strContains (goToLower runtimeName) "commercial" then true
  else if major = 7 then decide (update > 80)
  else if major = 8 then decide (update > 202)
  else if major = 11 then true
  else if major = 17 then decide (update ≥ 13)
  else if 18 ≤ major ∧ major ≤ 20 then false
  else if major ≥ 21 then false
  else true

/-! ## ReportAssembler data (`src/scanner/main.go`) -/

/-- `JavaResult` (`src/scanner/main.go:39-46`).  `hasError` models
`Error != nil`; the captured stderr text is carried opaquely. -/
structure JavaResult where
  path : String := ""
  properties : Option JavaProperties := none
  stdErr : String := ""
  returnCode : Int := 0
  hasError : Bool := false
  evaluated : Bool := false
deriving Repr, DecidableEq

/-- `MetaInfo` (`src/scanner/main.go:62-72`). -/
structure MetaInfo where
  scanTimestamp : String := ""
  computerName : String := ""
  userName : String := ""
  scanDuration : String := ""
  hasOracleJDK : Bool := false
  countResult : Nat := 0
  countRequireLicense : Nat := 0
  scannedDirs : Nat := 0
  scanPath : String := ""
deriving Repr, DecidableEq

/-- `JSONOutput` (`src/scanner/main.go:75-78`). -/
structure JSONOutput where
  meta : MetaInfo
  runtimes : List JavaRuntimeJSON
deriving Repr, DecidableEq

/-- The command-line configuration struct (`src/scanner/main.go:334-344`). -/
structure Config where
  startPath : String := ""
  maxDepth : Int := -1
  verbose : Bool := false
  evaluate : Bool := false
  jsonOutput : Bool := false
  doPost : Bool := false
  postURL : String := ""
  requireLicense : Bool := false
  help : Bool := false
deriving Repr, DecidableEq

/-- `createRuntimeJSON` (`src/scanner/main.go:403-421`). -/
def createRuntimeJSON (result : JavaResult) (evaluate : Bool) : JavaRuntimeJSON :=
  let rt : JavaRuntimeJSON := { javaExecutable := result.path }
  if evaluate ∧ result.properties.isSome ∧ result.hasError = false ∧ result.returnCode = 0 then
    let p := result.properties.getD {}
    checkLicenseRequirement
      { rt with
        javaVersion := p.version
        javaVendor := p.vendor
        javaRuntime := p.runtimeName
        isOracle := strContains p.vendor "Oracle"
        versionMajor := p.major
        versionUpdate := p.update }
  else if evaluate ∧ (result.hasError = true ∨ result.returnCode ≠ 0) then
    { rt with execFailed := true }
  else
    rt

/-- `createMetaInfo` (`src/scanner/main.go:381-400`).  Timestamp, host name,
user name and duration are ambient environment inputs, passed as parameters;
`scannedDirs` is the finder's counter value. -/
def createMetaInfo (startPath : String) (results : List JavaResult) (scannedDirs : Nat)
    (scanTs computerName userName duration : String) : MetaInfo :=
  { scanTimestamp := scanTs
    computerName := computerName
    userName := userName
    scanDuration := duration
    hasOracleJDK := false        -- "Will be updated later"
    countResult := results.length
    countRequireLicense := 0     -- "Will be updated later"
    scannedDirs := scannedDirs
    scanPath := startPath }

/-- The per-result loop of `handleJSONOutput` (`src/scanner/main.go:443-460`),
written as structural recursion: produces the filtered runtime list, the
`hasOracle` flag and the `countRequireLicense` counter.  The loop appends in
order; the Boolean/counter accumulators are order-insensitive. -/
def processResults (evaluate requireLicense : Bool) :
    List JavaResult → List JavaRuntimeJSON × Bool × Nat
  | [] => ([], false, 0)
  | result :: rest =>
    let rt := createRuntimeJSON result evaluate
    let acc := processResults evaluate requireLicense rest
    if requireLicense ∧ (rt.requireLicense = none ∨ rt.requireLicense = some false) then
      acc
    else
      (rt :: acc.1, (rt.isOracle || acc.2.1),
        (if rt.requireLicense = some true then 1 else 0) + acc.2.2)

/-- `handleJSONOutput` (`src/scanner/main.go:424-482`), up to serialization and
transport: assembles the `JSONOutput` value that is then marshalled. -/
def handleJSONOutput (results : List JavaResult) (scannedDirs : Nat) (config : Config)
    (scanTs host user dur : String) : JSONOutput :=
  let meta := createMetaInfo config.startPath results scannedDirs scanTs host user dur
  let (rts, hasOracle, cnt) := processResults config.evaluate config.requireLicense results
  { meta := { meta with hasOracleJDK := hasOracle, countRequireLicense := cnt }
    runtimes := rts }

/-! ## Claim-level specification functions -/

/-- Whether `strconv.Atoi` succeeds for a syntactic reason: optional sign
followed by a nonempty digit string. -/
def atoiSyntaxOk (cs : List Char) : Bool :=
  let ds := (stripSign cs).2
  !ds.isEmpty && ds.all Char.isDigit

/-- The unbounded mathematical value of a (syntactically valid) decimal
literal with optional sign. -/
def decValue (cs : List Char) : Int :=
  let p := stripSign cs
  if p.1 then -(digitsToNat p.2 : Int) else (digitsToNat p.2 : Int)

/-- Saturation to the 64-bit signed range. -/
def clampInt64 (v : Int) : Int := max int64Min (min int64Max v)

/-- Integer parsing as claim C4's words have it: a component that fails
integer parsing (for Go `strconv.Atoi`, either a syntax or a range failure)
degrades to `0`. -/
def atoiClaim (cs : List Char) : Int := if atoiOk cs then goAtoi cs else 0

/-- Version decomposition written from the words of claim C4 / spec §4.2,
using `atoiClaim` for every component. -/
def claimParseJavaVersion (version : String) : Int × Int :=
  let cs := version.toList
  if ['1', '.'].isPrefixOf cs then
    (atoiClaim ((splitOnChar '.' cs).getD 1 []),
      match afterFirstChar '_' cs with
      | some r => atoiClaim r
      | none => 0)
  else
    let parts := splitOnChar '.' cs
    (atoiClaim (parts.getD 0 []),
      if parts.length ≥ 3 then atoiClaim (parts.getD 2 []) else 0)

/-- Integer parsing as amended: syntactic failure degrades to `0`; a
syntactically valid component saturates to the 64-bit boundary instead. -/
def atoiAmended (cs : List Char) : Int :=
  if atoiSyntaxOk cs then clampInt64 (decValue cs) else 0

/-- Version decomposition written from the amended claim C4, using
`atoiAmended` for every component. -/
def claimParseJavaVersionAmended (version : String) : Int × Int :=
  let cs := version.toList
  if ['1', '.'].isPrefixOf cs then
    (atoiAmended ((splitOnChar '.' cs).getD 1 []),
      match afterFirstChar '_' cs with
      | some r => atoiAmended r
      | none => 0)
  else
    let parts := splitOnChar '.' cs
    (atoiAmended (parts.getD 0 []),
      if parts.length ≥ 3 then atoiAmended (parts.getD 2 []) else 0)

/-- Claim C4 as stated: decomposition with every failing component degrading
to `0`. -/
def claimC4Statement : Prop := ∀ v : String, parseJavaVersion v = claimParseJavaVersion v

/-- Claim C2 as stated: with the license filter active the reported total
result count equals the number of entries in the filtered result list. -/
def claimC2Statement : Prop :=
  ∀ (results : List JavaResult) (scannedDirs : Nat) (config : Config)
    (ts host user dur : String), config.requireLicense = true →
    (handleJSONOutput results scannedDirs config ts host user dur).meta.countResult =
      (handleJSONOutput results scannedDirs config ts host user dur).runtimes.length

/-! ## Supporting lemmas -/

/-- `splitOnChar` never returns the empty list. -/
theorem splitOnChar_ne_nil (sep : Char) (cs : List Char) : splitOnChar sep cs ≠ [] := by
  induction cs with
  | nil => simp [splitOnChar]
  | cons c t ih =>
    simp only [splitOnChar]
    split
    · simp
    · rcases h : splitOnChar sep t with _ | ⟨a, b⟩
      · simp
      · simp

/-- Go's `Atoi` value component agrees with the declarative
syntax-check/value/saturation description. -/
theorem goAtoi_eq_atoiAmended (cs : List Char) : goAtoi cs = atoiAmended cs := by
  unfold goAtoi atoiAmended atoiSyntaxOk decValue clampInt64
  by_cases hd : !(stripSign cs).2.isEmpty && (stripSign cs).2.all Char.isDigit
  · simp only [hd, if_true]
    unfold int64Max int64Min
    split <;> split <;> omega
  · simp [hd]

end JFind

namespace JFind

/-- Helper: the verdict computed by `checkLicenseRequirement` is exactly the
specification rule table for Oracle records, and absent otherwise. -/
theorem checkLicenseRequirement_requireLicense (j : JavaRuntimeJSON) :
    (checkLicenseRequirement j).requireLicense =
      if j.isOracle then
        some (specLicenseRequired j.javaRuntime j.versionMajor j.versionUpdate)
      else none := by
  rcases hO : j.isOracle with _ | _
  · simp [checkLicenseRequirement, hO]
  · rw [if_pos rfl]
    rcases hop : strContains (goToLower j.javaRuntime) "openjdk" with _ | _
    · have hcan : j.javaRuntime ≠ "OpenJDK Runtime Environment" := by
        intro e
        rw [e] at hop
        exact absurd hop (by decide)
      rcases hcom : strContains (goToLower j.javaRuntime) "commercial" with _ | _
      · unfold checkLicenseRequirement specLicenseRequired
        simp only [hO, Bool.not_true, Bool.false_eq_true, if_false, hop, hcom, hcan,
          false_and, and_false, or_false, false_or, if_neg]
        split_ifs <;>
          simp only [Option.some.injEq] <;>
          first
            | rfl
            | (symm; apply decide_eq_false; omega)
            | (symm; apply decide_eq_true; omega)
      · have h0 : j.javaRuntime ≠ "" := by
          intro e
          rw [e] at hcom
          exact absurd hcom (by decide)
        simp [checkLicenseRequirement, specLicenseRequired, hO, hop, hcom, hcan, h0]
    · have h0 : j.javaRuntime ≠ "" := by
        intro e
        rw [e] at hop
        exact absurd hop (by decide)
      simp [checkLicenseRequirement, specLicenseRequired, hO, hop, h0]

/-- Helper: the guarded legacy-major extraction equals the unguarded claim
reading (an absent second component is empty and parses to 0). -/
theorem legacy_major_eq (parts : List (List Char)) :
    (if parts.length ≥ 2 then goAtoi (parts.getD 1 []) else 0)
      = atoiAmended (parts.getD 1 []) := by
  by_cases h : parts.length ≥ 2
  · rw [if_pos h, goAtoi_eq_atoiAmended]
  · rw [if_neg h, List.getD_eq_default _ _ (by omega)]
    decide

/-- Helper: for a nonempty split, the guarded modern-major extraction equals
the unguarded claim reading. -/
theorem modern_major_eq (parts : List (List Char)) (h1 : parts ≠ []) :
    (if parts.length ≥ 1 then goAtoi (parts.getD 0 []) else 0)
      = atoiAmended (parts.getD 0 []) := by
  have h : parts.length ≥ 1 := by
    rcases parts with _ | ⟨a, b⟩
    · exact absurd rfl h1
    · simp
  rw [if_pos h, goAtoi_eq_atoiAmended]

/-- C1: for every Oracle-recognized record, `checkLicenseRequirement` computes
exactly the specification's rule table (open-source identifier, commercial
word, then the per-major update thresholds, first match wins). -/
theorem license_rule_table (j : JavaRuntimeJSON) (h : j.isOracle = true) :
    (checkLicenseRequirement j).requireLicense =
      some (specLicenseRequired j.javaRuntime j.versionMajor j.versionUpdate) := by
  rw [checkLicenseRequirement_requireLicense, if_pos h]

/-- Witness for C1 at the spec's own scenario: Oracle vendor, empty runtime
name, major 8, update 202 (not required) and update 203 (required). -/
theorem license_rule_table_witness :
    (checkLicenseRequirement { isOracle := true, versionMajor := 8, versionUpdate := 202 }).requireLicense
        = some (specLicenseRequired "" 8 202)
    ∧ specLicenseRequired "" 8 202 = false
    ∧ specLicenseRequired "" 8 203 = true :=
  ⟨license_rule_table { isOracle := true, versionMajor := 8, versionUpdate := 202 } rfl,
    by decide, by decide⟩

/-- C4 as stated is false: an out-of-range component does not degrade to 0.
Go's `Atoi` keeps the saturated boundary value on a range failure, so
`"1.99999999999999999999.0"` yields major `2^63 - 1`, not `0`. -/
theorem version_parse_cex : ¬ claimC4Statement :=
  fun h => absurd (h "1.99999999999999999999.0") (by decide)

/-- C4 amended: decomposition exactly as claimed, except that a syntactically
valid but out-of-range component saturates to the 64-bit boundary instead of
degrading to 0 (only syntactic failures degrade to 0). -/
theorem version_parse_amended (v : String) :
    parseJavaVersion v = claimParseJavaVersionAmended v := by
  unfold parseJavaVersion claimParseJavaVersionAmended
  by_cases hpre : ['1', '.'].isPrefixOf v.toList = true
  · rw [if_pos hpre, if_pos hpre]
    dsimp only
    simp only [Prod.mk.injEq]
    constructor
    · exact legacy_major_eq _
    · cases hA : afterFirstChar '_' v.toList <;> simp [goAtoi_eq_atoiAmended]
  · rw [if_neg hpre, if_neg hpre]
    dsimp only
    simp only [Prod.mk.injEq]
    constructor
    · exact modern_major_eq _ (splitOnChar_ne_nil '.' v.toList)
    · split
      · rw [goAtoi_eq_atoiAmended]
      · rfl

end JFind

namespace JFind

/-- Helper: without evaluation, `createRuntimeJSON` carries no verdict. -/
theorem createRuntimeJSON_no_eval (result : JavaResult) :
    (createRuntimeJSON result false).requireLicense = none := by
  simp [createRuntimeJSON]

/-- Helper: with the license-only filter active, the counter accumulated by
the output loop equals the number of kept entries, and the Oracle flag is
their disjunction. -/
theorem processResults_filter (evaluate : Bool) (results : List JavaResult) :
    (processResults evaluate true results).2.2 = (processResults evaluate true results).1.length
    ∧ (processResults evaluate true results).2.1
        = (processResults evaluate true results).1.any (fun rt => rt.isOracle) := by
  induction results with
  | nil => simp [processResults]
  | cons r rest ih =>
    rcases hrl : (createRuntimeJSON r evaluate).requireLicense with _ | b
    · simpa [processResults, hrl] using ih
    · rcases b with _ | _
      · simpa [processResults, hrl] using ih
      · simp [processResults, hrl, ih.1, ih.2, Nat.add_comm]

/-- C5: for every successfully evaluated identity record, the license verdict
is absent exactly when the vendor string does not contain `"Oracle"` as a
case-sensitive substring; when it does, a definite verdict is always set. -/
theorem license_verdict_absence (result : JavaResult) (p : JavaProperties)
    (hp : result.properties = some p) (he : result.hasError = false)
    (hrc : result.returnCode = 0) :
    (createRuntimeJSON result true).requireLicense = none
      ↔ strContains p.vendor "Oracle" = false := by
  unfold createRuntimeJSON
  simp only [hp, Option.isSome_some, he, hrc, true_and, and_true, if_pos, Option.getD_some,
    eq_self_iff_true, not_true, if_true]
  rw [checkLicenseRequirement_requireLicense]
  rcases h : strContains p.vendor "Oracle" with _ | _ <;> simp [h]

/-- Witness for C5: an Oracle-vendor record gets a definite verdict. -/
theorem license_verdict_absence_witness :
    (createRuntimeJSON
        { path := "/usr/bin/java"
          properties := some
            { version := "11.0.20", vendor := "Oracle Corporation"
              runtimeName := "Java(TM) SE Runtime Environment", major := 11, update := 20 } }
        true).requireLicense = none
      ↔ strContains "Oracle Corporation" "Oracle" = false :=
  license_verdict_absence _ _ rfl rfl rfl

/-- C9: in the legacy scheme the update component is the integer parse of the
entire remainder after the first underscore, so a non-numeric suffix such as
`"1.8.0_202-b08"` degrades the update to 0 instead of 202. -/
theorem legacy_update_suffix :
    (∀ (v : String) (rest : List Char),
        ['1', '.'].isPrefixOf v.toList = true →
        afterFirstChar '_' v.toList = some rest →
        (parseJavaVersion v).2 = goAtoi rest)
    ∧ atoiSyntaxOk "202-b08".toList = false
    ∧ parseJavaVersion "1.8.0_202-b08" = (8, 0) := by
  refine ⟨?_, by decide, by decide⟩
  intro v rest hpre hafter
  unfold parseJavaVersion
  rw [if_pos hpre]
  dsimp only
  rw [hafter]

/-- Witness for C9 at the claim's own example. -/
theorem legacy_update_suffix_witness :
    (parseJavaVersion "1.8.0_202-b08").2 = goAtoi "202-b08".toList :=
  legacy_update_suffix.1 "1.8.0_202-b08" "202-b08".toList (by decide) (by decide)

/-- C2 as stated is false: `count_result` is taken from the pre-filter result
list.  One discovered result that carries no verdict is filtered out of the
report, yet `count_result` still reads 1 while the result list is empty. -/
theorem filtered_counts_cex : ¬ claimC2Statement :=
  fun h =>
    absurd
      (h [{ path := "/opt/java" }] 0 { evaluate := true, requireLicense := true } "" "" "" "" rfl)
      (by decide)

/-- C2 amended: with the license filter active, the licensed-vendor flag and
the count-requiring-license are computed over the filtered result list (the
latter equals its length, since every kept entry requires a license), but the
total result count is the pre-filter number of discovered results. -/
theorem filtered_counts (results : List JavaResult) (scannedDirs : Nat) (config : Config)
    (ts host user dur : String) (h : config.requireLicense = true) :
    (handleJSONOutput results scannedDirs config ts host user dur).meta.countResult
        = results.length
    ∧ (handleJSONOutput results scannedDirs config ts host user dur).meta.countRequireLicense
        = (handleJSONOutput results scannedDirs config ts host user dur).runtimes.length
    ∧ (handleJSONOutput results scannedDirs config ts host user dur).meta.hasOracleJDK
        = (handleJSONOutput results scannedDirs config ts host user dur).runtimes.any
            (fun rt => rt.isOracle) := by
  unfold handleJSONOutput createMetaInfo
  rw [h]
  exact ⟨rfl, (processResults_filter config.evaluate results).1,
    (processResults_filter config.evaluate results).2⟩

/-- Witness for C2's amended statement on a two-result scan where one entry
survives the filter. -/
theorem filtered_counts_witness :
    ((handleJSONOutput
        [{ path := "/opt/free/java"
           properties := some { version := "17.0.1", vendor := "Eclipse Adoptium"
                                runtimeName := "", major := 17, update := 1 } },
         { path := "/opt/oracle/java"
           properties := some { version := "1.8.0_301", vendor := "Oracle Corporation"
                                runtimeName := "", major := 8, update := 301 } }]
        7 { evaluate := true, requireLicense := true } "" "" "" "").meta.countResult = 2)
    ∧ ((handleJSONOutput
        [{ path := "/opt/free/java"
           properties := some { version := "17.0.1", vendor := "Eclipse Adoptium"
                                runtimeName := "", major := 17, update := 1 } },
         { path := "/opt/oracle/java"
           properties := some { version := "1.8.0_301", vendor := "Oracle Corporation"
                                runtimeName := "", major := 8, update := 301 } }]
        7 { evaluate := true, requireLicense := true } "" "" "" "").runtimes.length = 1) := by
  have h := filtered_counts
    [{ path := "/opt/free/java"
       properties := some { version := "17.0.1", vendor := "Eclipse Adoptium"
                            runtimeName := "", major := 17, update := 1 } },
     { path := "/opt/oracle/java"
       properties := some { version := "1.8.0_301", vendor := "Oracle Corporation"
                            runtimeName := "", major := 8, update := 301 } }]
    7 { evaluate := true, requireLicense := true } "" "" "" "" rfl
  exact ⟨h.1, by decide⟩

/-- C10: with the license-only filter active but evaluation off, every record
carries no verdict, so the filtered result list is empty no matter how many
candidates were discovered. -/
theorem filter_without_eval_empty (results : List JavaResult) (scannedDirs : Nat)
    (sp url ts host user dur : String) (maxD : Int) (vb jo dp hp : Bool) :
    (handleJSONOutput results scannedDirs
        { startPath := sp, maxDepth := maxD, verbose := vb, evaluate := false,
          jsonOutput := jo, doPost := dp, postURL := url, requireLicense := true, help := hp }
        ts host user dur).runtimes = [] := by
  unfold handleJSONOutput
  dsimp only
  induction results with
  | nil => rfl
  | cons r rest ih =>
    simpa [processResults, createRuntimeJSON_no_eval r] using ih

end JFind

namespace JFind

/-! ## TreeWalker: `filepath.Walk` and the `Find` callback

The walk is embedded over an abstract filesystem tree.  Paths are represented
as the list of name segments relative to the scan root (the root itself is
`[]`); `filepath.Join(dir, name)` is list append.  Read failures appear in the
tree where Go produces them: a `bad` entry is one whose `Lstat` fails in the
parent's enumeration loop, and a directory's `readErr` is a failure of
`readDirNames` on the directory itself. -/

/-- The two classes of I/O error the walker distinguishes
(`os.IsPermission(err)` true or false). -/
inductive GoErr where
  | permission
  | other
deriving Repr, DecidableEq

/-- Abstract `os.FileInfo`: base name, directory flag, and whether the Unix
execute bits (`Mode()&0111 != 0`) are set. -/
structure FileInfo where
  name : String
  isDir : Bool
  exec : Bool
deriving Repr, DecidableEq

/-- `isExecutable` (`src/scanner/utils.go:71-76`, current revision): on
Windows any entry passes; elsewhere the execute bits decide. -/
def isExecutable (goos : String) (info : FileInfo) : Bool :=
  if goos == "windows" then true else info.exec

/-- `isJavaExecutable` (`src/scanner/utils.go:78-81`, current revision): the
base name is lowercased and compared against both platform spellings,
independently of the platform. -/
def isJavaExecutable (name : String) : Bool :=
  goToLower name == "java" || goToLower name == "java.exe"

/-- `isExecutable` as in the superseded revision `src/scanner/main.go:107-114`. -/
def isExecutable_main (goos : String) (info : FileInfo) : Bool :=
  if goos == "windows" then !info.isDir else info.exec

/-- `isJavaExecutable` as in the superseded revision
`src/scanner/main.go:117-122` (case-sensitive and platform-specific). -/
def isJavaExecutable_main (goos : String) (name : String) : Bool :=
  if goos == "windows" then name == "java.exe" else name == "java"

mutual
/-- A filesystem node: a regular file, a directory (with an optional
`readDirNames` failure), or an entry whose `Lstat` fails. -/
inductive FSNode where
  | file (name : String) (exec : Bool)
  | dir (name : String) (readErr : Option GoErr) (entries : FSList)
  | bad (name : String) (e : GoErr)

/-- Directory entries, in filesystem enumeration order. -/
inductive FSList where
  | nil
  | cons (head : FSNode) (tail : FSList)
end

/-- Base name of a node. -/
def nodeName : FSNode → String
  | .file n _ => n
  | .dir n _ _ => n
  | .bad n _ => n

/-- Whether a node is a directory. -/
def isDirNode : FSNode → Bool
  | .dir _ _ _ => true
  | _ => false

/-- The state threaded through a walk: the two shared counters and the
accumulated result paths (a `JavaResult`'s identity is its path; the optional
subprocess evaluation attached to it is external I/O and not modelled). -/
structure WalkState where
  scanned : Nat
  found : Nat
  results : List (List String)
deriving Repr, DecidableEq

/-- `getPathDepth` (`src/scanner/utils.go:428-439`): on a path represented by
its relative segment list, `TrimPrefix`/`Trim`/`Split` yield the number of
segments, and the root itself is 0.  The `HasPrefix` failure branch (-1)
cannot arise: `filepath.Walk` only presents paths under the root. -/
def getPathDepth (rel : List String) : Int := rel.length

/-- Non-nil values the walk callback can return: `filepath.SkipDir` or a
propagated error. -/
inductive WalkSignal where
  | skipDir
  | fail (e : GoErr)
deriving Repr, DecidableEq

/-- Depth acceptance: unlimited, or within the configured maximum. -/
def depthOK (maxDepth : Int) (p : List String) : Prop :=
  maxDepth < 0 ∨ (p.length : Int) ≤ maxDepth

instance (maxDepth : Int) (p : List String) : Decidable (depthOK maxDepth p) := by
  unfold depthOK
  infer_instance

/-- `handleDirectory` (`src/scanner/utils.go:510-541`, current revision):
permission errors prune (`filepath.SkipDir`), other errors are returned;
`.git` directories and too-deep paths are pruned; the `scanned` counter is
incremented for directories that got past those checks. -/
def handleDirectory (maxDepth : Int) (path : List String) (info : Option FileInfo)
    (err : Option GoErr) (st : WalkState) : WalkState × Option WalkSignal :=
  match err with
  | some e => if e = .permission then (st, some .skipDir) else (st, some (.fail e))
  | none =>
    match info with
    | none => (st, none)   -- unreachable: Walk passes a FileInfo whenever err is nil
    | some i =>
      if i.isDir = true ∧ i.name = ".git" then (st, some .skipDir)
      else if maxDepth ≥ 0 ∧ getPathDepth path > maxDepth then (st, some .skipDir)
      else if i.isDir = true then ({ st with scanned := st.scanned + 1 }, none)
      else (st, none)

/-- `evaluateFile` (`src/scanner/utils.go:495-507`, current revision): an
entry is a candidate when it is a non-directory whose name matches
`isJavaExecutable` and which passes `isExecutable`. -/
def evaluateFile (goos : String) (path : List String) (info : Option FileInfo) :
    Option (List String) :=
  match info with
  | none => none
  | some i =>
    if i.isDir = false ∧ isJavaExecutable i.name = true ∧ isExecutable goos i = true then
      some path
    else none

/-- The walk callback of `Find` (`src/scanner/utils.go:550-561`):
`handleDirectory` first, then `evaluateFile`, bumping the `found` counter and
appending to the result list. -/
def findWalkFn (goos : String) (maxDepth : Int) (path : List String)
    (info : Option FileInfo) (err : Option GoErr) (st : WalkState) :
    WalkState × Option WalkSignal :=
  let r := handleDirectory maxDepth path info err st
  match r.2 with
  | some s => (r.1, some s)
  | none =>
    match evaluateFile goos path info with
    | some p => ({ r.1 with found := r.1.found + 1, results := r.1.results ++ [p] }, none)
    | none => (r.1, none)

/-- `handleDirectory` as in the superseded revision
(`src/scanner/main.go:235-269`): non-permission errors are logged and
swallowed (nil), the counter is incremented before the depth check, and the
depth check returns nil (not `SkipDir`) for files. -/
def handleDirectory_main (maxDepth : Int) (path : List String) (info : Option FileInfo)
    (err : Option GoErr) (st : WalkState) : WalkState × Option WalkSignal :=
  match err with
  | some e => if e = .permission then (st, some .skipDir) else (st, none)
  | none =>
    match info with
    | none => (st, none)
    | some i =>
      let st1 := if i.isDir = true then { st with scanned := st.scanned + 1 } else st
      if maxDepth ≥ 0 ∧ getPathDepth path > maxDepth then
        if i.isDir = true then (st1, some .skipDir) else (st1, none)
      else (st1, none)

/-- `evaluateFile` of the superseded revision (`src/scanner/main.go:220-232`),
which used the case-sensitive, platform-specific name test. -/
def evaluateFile_main (goos : String) (path : List String) (info : Option FileInfo) :
    Option (List String) :=
  match info with
  | none => none
  | some i =>
    if i.isDir = false ∧ isJavaExecutable_main goos i.name = true
        ∧ isExecutable_main goos i = true then
      some path
    else none

/-- The walk callback of the superseded revision's `Find`
(`src/scanner/main.go:284-297`). -/
def findWalkFn_main (goos : String) (maxDepth : Int) (path : List String)
    (info : Option FileInfo) (err : Option GoErr) (st : WalkState) :
    WalkState × Option WalkSignal :=
  let r := handleDirectory_main maxDepth path info err st
  match r.2 with
  | some s => (r.1, some s)
  | none =>
    match evaluateFile_main goos path info with
    | some p => ({ r.1 with found := r.1.found + 1, results := r.1.results ++ [p] }, none)
    | none => (r.1, none)

/-- The type of walk callbacks (`filepath.WalkFunc` plus the scanner state). -/
def WalkFn : Type :=
  List String → Option FileInfo → Option GoErr → WalkState → WalkState × Option WalkSignal

mutual
/-- Go `filepath.walk` for a node whose `Lstat` succeeded: files get a single
callback; directories get one callback (with any `readDirNames` error), and
their entries are visited unless that callback returned non-nil or reading
failed. -/
def walkNode (fn : WalkFn) (node : FSNode) (path : List String) (st : WalkState) :
    WalkState × Option WalkSignal :=
  match node with
  | .file n ex => fn path (some ⟨n, false, ex⟩) none st
  | .bad _ _ => (st, none)   -- unreachable: Lstat failures are handled in walkList
  | .dir n rerr es =>
    let r1 := fn path (some ⟨n, true, false⟩) rerr st
    if rerr.isSome ∨ r1.2.isSome then (r1.1, r1.2)
    else walkList fn path es r1.1

/-- The enumeration loop inside Go `filepath.walk`: `path` is the enclosing
directory's own path; each entry is visited at `path ++ [name]`.  An entry
whose `Lstat` fails produces one callback with the error, whose `SkipDir` (or
nil) lets the loop continue.  A `SkipDir` from a subdirectory is absorbed; a
`SkipDir` from a file aborts the remaining entries of this directory and is
passed up (where the enclosing directory's parent absorbs it). -/
def walkList (fn : WalkFn) (path : List String) (es : FSList) (st : WalkState) :
    WalkState × Option WalkSignal :=
  match es with
  | .nil => (st, none)
  | .cons c rest =>
    match c with
    | .bad n e =>
      let r := fn (path ++ [n]) none (some e) st
      match r.2 with
      | some (.fail ge) => (r.1, some (.fail ge))
      | _ => walkList fn path rest r.1
    | _ =>
      let r := walkNode fn c (path ++ [nodeName c]) st
      match r.2 with
      | none => walkList fn path rest r.1
      | some .skipDir =>
        if isDirNode c = true then walkList fn path rest r.1 else (r.1, some .skipDir)
      | some (.fail e) => (r.1, some (.fail e))
end

/-- Go `filepath.Walk(root, fn)`: a failing `Lstat` of the root produces one
callback with the error; a top-level `SkipDir` is turned into success. -/
def walkTop (fn : WalkFn) (root : FSNode) : WalkState × Option GoErr :=
  let st0 : WalkState := ⟨0, 0, []⟩
  let r :=
    match root with
    | .bad _ e => fn [] none (some e) st0
    | _ => walkNode fn root [] st0
  (r.1,
    match r.2 with
    | some (.fail e) => some e
    | _ => none)

/-- `Find` (`src/scanner/utils.go:544-564`, current revision): run the walk
with the scanner's callback, returning the final state (counters and result
list in discovery order) and the walk's error. -/
def Find (goos : String) (maxDepth : Int) (root : FSNode) : WalkState × Option GoErr :=
  walkTop (findWalkFn goos maxDepth) root

/-- `Find` of the superseded revision (`src/scanner/main.go:272-301`). -/
def Find_main (goos : String) (maxDepth : Int) (root : FSNode) : WalkState × Option GoErr :=
  walkTop (findWalkFn_main goos maxDepth) root

end JFind

namespace JFind

/-! ## Specification-side walk descriptions -/

mutual
/-- The candidates the walk is specified to report: files with the target
name and executability, within the depth limit, not inside a `.git`
directory, a depth-pruned directory, or an unreadable one.  `p` is the node's
own path. -/
def nodeCands (goos : String) (maxDepth : Int) (node : FSNode) (p : List String) :
    List (List String) :=
  match node with
  | .file n ex =>
    if depthOK maxDepth p ∧ isJavaExecutable n = true
        ∧ isExecutable goos ⟨n, false, ex⟩ = true then [p]
    else []
  | .bad _ _ => []
  | .dir n rerr es =>
    if n = ".git" ∨ ¬ depthOK maxDepth p ∨ rerr.isSome = true then []
    else listCands goos maxDepth p es

/-- Candidates contributed by a directory's entries (`p` the directory's path). -/
def listCands (goos : String) (maxDepth : Int) (p : List String) (es : FSList) :
    List (List String) :=
  match es with
  | .nil => []
  | .cons c rest =>
    nodeCands goos maxDepth c (p ++ [nodeName c]) ++ listCands goos maxDepth p rest
end

mutual
/-- The directories the walk counts: those that pass the error, `.git` and
depth checks (the increment sits after those checks). -/
def nodeDirs (maxDepth : Int) (node : FSNode) (p : List String) : Nat :=
  match node with
  | .file _ _ => 0
  | .bad _ _ => 0
  | .dir n rerr es =>
    if n = ".git" ∨ ¬ depthOK maxDepth p ∨ rerr.isSome = true then 0
    else 1 + listDirs maxDepth p es

/-- Directories counted within a directory's entries. -/
def listDirs (maxDepth : Int) (p : List String) (es : FSList) : Nat :=
  match es with
  | .nil => 0
  | .cons c rest => nodeDirs maxDepth c (p ++ [nodeName c]) + listDirs maxDepth p rest
end

mutual
/-- Claim C7's notion of "directories actually opened": every directory the
walk reaches, including those pruned afterwards (for depth, the `.git` rule,
or a read error). -/
def nodeOpened (maxDepth : Int) (node : FSNode) (p : List String) : Nat :=
  match node with
  | .file _ _ => 0
  | .bad _ _ => 0
  | .dir n rerr es =>
    1 + (if n = ".git" ∨ ¬ depthOK maxDepth p ∨ rerr.isSome = true then 0
         else listOpened maxDepth p es)

/-- Opened directories within a directory's entries. -/
def listOpened (maxDepth : Int) (p : List String) (es : FSList) : Nat :=
  match es with
  | .nil => 0
  | .cons c rest => nodeOpened maxDepth c (p ++ [nodeName c]) + listOpened maxDepth p rest
end

mutual
/-- Every read error in the tree is a permission error. -/
def nodePermOnly : FSNode → Bool
  | .file _ _ => true
  | .bad _ e => decide (e = .permission)
  | .dir _ rerr es =>
    (decide (rerr = none) || decide (rerr = some .permission)) && listPermOnly es

/-- `nodePermOnly` over a directory's entries. -/
def listPermOnly : FSList → Bool
  | .nil => true
  | .cons c rest => nodePermOnly c && listPermOnly rest
end

mutual
/-- The tree has no read errors at all. -/
def nodeClean : FSNode → Bool
  | .file _ _ => true
  | .bad _ _ => false
  | .dir _ rerr es => decide (rerr = none) && listClean es

/-- `nodeClean` over a directory's entries. -/
def listClean : FSList → Bool
  | .nil => true
  | .cons c rest => nodeClean c && listClean rest
end

/-- Membership of a node in an entry list. -/
inductive FSMem (c : FSNode) : FSList → Prop where
  | head (rest : FSList) : FSMem c (.cons c rest)
  | tail (d : FSNode) (rest : FSList) : FSMem c rest → FSMem c (.cons d rest)

/-- `GoodFileAt node rel n ex`: relative to `node`, the path `rel` leads
through directories none of which is named `.git` to a regular file named `n`
with execute bits `ex` (for `node` itself a file, `rel = []`). -/
inductive GoodFileAt : FSNode → List String → String → Bool → Prop where
  | file (n : String) (ex : Bool) : GoodFileAt (.file n ex) [] n ex
  | dir (d : String) (rerr : Option GoErr) (es : FSList) (c : FSNode)
      (rel : List String) (n : String) (ex : Bool) :
      d ≠ ".git" → FSMem c es → GoodFileAt c rel n ex →
      GoodFileAt (.dir d rerr es) (nodeName c :: rel) n ex

/-- The platform-specific target name of claim C8. -/
def targetName (goos : String) : String :=
  if goos == "windows" then "java.exe" else "java"

/-- Claim C8 as stated: an entry is a candidate exactly when its base name
equals the platform target under a case-sensitive comparison and it passes
the executability test. -/
def claimC8Statement : Prop :=
  ∀ (goos : String) (p : List String) (name : String) (isdir ex : Bool),
    (evaluateFile goos p (some ⟨name, isdir, ex⟩)).isSome = true
      ↔ (isdir = false ∧ name = targetName goos
          ∧ isExecutable goos ⟨name, isdir, ex⟩ = true)

/-- Claim C6 as stated: for a directory root, permission errors prune and any
other read error merely skips that path, so the walk never aborts and reports
every reachable candidate. -/
def claimC6Statement : Prop :=
  ∀ (goos : String) (maxDepth : Int) (root : FSNode), isDirNode root = true →
    (Find goos maxDepth root).2 = none
    ∧ (Find goos maxDepth root).1.results = nodeCands goos maxDepth root []

/-- Claim C7 as stated: the `scanned` counter is incremented before the
depth-pruning decision, so it counts every directory the walk opened,
including ones pruned for depth. -/
def claimC7Statement : Prop :=
  ∀ (goos : String) (maxDepth : Int) (root : FSNode), nodeClean root = true →
    (Find goos maxDepth root).1.scanned = nodeOpened maxDepth root []

end JFind

namespace JFind

/-- The depth guard in `handleDirectory` accepts exactly `depthOK`. -/
theorem depthOK_iff (maxDepth : Int) (p : List String) :
    depthOK maxDepth p ↔ ¬ (maxDepth ≥ 0 ∧ getPathDepth p > maxDepth) := by
  unfold depthOK getPathDepth
  omega

/-- A node beyond the depth limit contributes no candidates. -/
theorem nodeCands_deep (goos : String) (maxDepth : Int) (node : FSNode) (p : List String)
    (h : ¬ depthOK maxDepth p) : nodeCands goos maxDepth node p = [] := by
  cases node with
  | file n ex => simp [nodeCands, h]
  | bad n e => simp [nodeCands]
  | dir n rerr es => simp [nodeCands, h]

/-- Beyond the depth limit a node also counts no directories. -/
theorem nodeDirs_deep (maxDepth : Int) (node : FSNode) (p : List String)
    (h : ¬ depthOK maxDepth p) : nodeDirs maxDepth node p = 0 := by
  cases node with
  | file n ex => simp [nodeDirs]
  | bad n e => simp [nodeDirs]
  | dir n rerr es => simp [nodeDirs, h]

/-- Children of a directory sitting at the depth boundary are all beyond it. -/
theorem child_not_depthOK (maxDepth : Int) (p : List String) (x : String)
    (h0 : maxDepth ≥ 0) (h1 : (p.length : Int) + 1 > maxDepth) :
    ¬ depthOK maxDepth (p ++ [x]) := by
  unfold depthOK
  simp only [List.length_append, List.length_cons, List.length_nil]
  omega

/-- Entries of a directory at the depth boundary contribute no candidates. -/
theorem listCands_deep (goos : String) (maxDepth : Int) (p : List String) (es : FSList)
    (h0 : maxDepth ≥ 0) (h1 : (p.length : Int) + 1 > maxDepth) :
    listCands goos maxDepth p es = [] :=
  match es with
  | .nil => by simp [listCands]
  | .cons c rest => by
    have ih := listCands_deep goos maxDepth p rest h0 h1
    simp [listCands, nodeCands_deep goos maxDepth c _ (child_not_depthOK maxDepth p _ h0 h1), ih]

/-- Entries of a directory at the depth boundary count no directories. -/
theorem listDirs_deep (maxDepth : Int) (p : List String) (es : FSList)
    (h0 : maxDepth ≥ 0) (h1 : (p.length : Int) + 1 > maxDepth) :
    listDirs maxDepth p es = 0 :=
  match es with
  | .nil => by simp [listDirs]
  | .cons c rest => by
    have ih := listDirs_deep maxDepth p rest h0 h1
    simp [listDirs, nodeDirs_deep maxDepth c _ (child_not_depthOK maxDepth p _ h0 h1), ih]

end JFind

namespace JFind

/-- `nodeName` on each constructor. -/
theorem nodeName_file (n : String) (ex : Bool) : nodeName (.file n ex) = n := rfl

/-- `nodeName` on directories. -/
theorem nodeName_dir (n : String) (r : Option GoErr) (es : FSList) :
    nodeName (.dir n r es) = n := rfl

/-- `nodeName` on bad entries. -/
theorem nodeName_bad (n : String) (e : GoErr) : nodeName (.bad n e) = n := rfl

mutual
/-- Master lemma, node form: on a tree whose read errors are all permission
errors, the walk starting at a (non-`bad`) node adds exactly the
specification's directory count and candidate list to the incoming state,
never returns an error, and returns `SkipDir` only for directories or for
files beyond the depth limit. -/
theorem walkNode_perm (goos : String) (maxD : Int) (node : FSNode) (p : List String)
    (st : WalkState) (hperm : nodePermOnly node = true)
    (hnb : ∀ nm e, node ≠ FSNode.bad nm e) :
    (walkNode (findWalkFn goos maxD) node p st).1
        = { scanned := st.scanned + nodeDirs maxD node p
            found := st.found + (nodeCands goos maxD node p).length
            results := st.results ++ nodeCands goos maxD node p }
    ∧ (∀ e, (walkNode (findWalkFn goos maxD) node p st).2 ≠ some (.fail e))
    ∧ ((walkNode (findWalkFn goos maxD) node p st).2 = some .skipDir →
          isDirNode node = true ∨ ¬ depthOK maxD p) := by
  cases node with
  | bad nm e => exact absurd rfl (hnb nm e)
  | file n ex =>
    by_cases hd : depthOK maxD p
    · have hd1 : ¬ (maxD ≥ 0 ∧ getPathDepth p > maxD) := (depthOK_iff maxD p).mp hd
      by_cases hj : isJavaExecutable n = true
      · by_cases hx : isExecutable goos ⟨n, false, ex⟩ = true
        · refine ⟨?_, ?_, ?_⟩ <;>
            simp [walkNode, findWalkFn, handleDirectory, evaluateFile, nodeCands, nodeDirs,
              hd, hd1, hj, hx]
        · refine ⟨?_, ?_, ?_⟩ <;>
            simp [walkNode, findWalkFn, handleDirectory, evaluateFile, nodeCands, nodeDirs,
              hd, hd1, hj, hx]
      · refine ⟨?_, ?_, ?_⟩ <;>
          simp [walkNode, findWalkFn, handleDirectory, evaluateFile, nodeCands, nodeDirs,
            hd, hd1, hj]
    · have hd1 : maxD ≥ 0 ∧ getPathDepth p > maxD := by
        unfold depthOK at hd
        unfold getPathDepth
        omega
      refine ⟨?_, ?_, ?_⟩ <;>
        simp [walkNode, findWalkFn, handleDirectory, evaluateFile, nodeCands, nodeDirs,
          hd, hd1.1, hd1.2]
  | dir n rerr es =>
    have hperm' : listPermOnly es = true := by
      simp only [nodePermOnly, Bool.and_eq_true] at hperm
      exact hperm.2
    rcases rerr with _ | e
    · by_cases hg : n = ".git"
      · refine ⟨?_, ?_, ?_⟩ <;>
          simp [walkNode, findWalkFn, handleDirectory, evaluateFile, nodeCands, nodeDirs,
            isDirNode, hg]
      · by_cases hd : depthOK maxD p
        · have hd1 : ¬ (maxD ≥ 0 ∧ getPathDepth p > maxD) := (depthOK_iff maxD p).mp hd
          have ih := walkList_perm goos maxD es p
            { st with scanned := st.scanned + 1 } hperm'
          have hr1 : findWalkFn goos maxD p (some ⟨n, true, false⟩) none st
              = ({ st with scanned := st.scanned + 1 }, none) := by
            simp [findWalkFn, handleDirectory, evaluateFile, hg, hd1]
          refine ⟨?_, ?_, ?_⟩
          · simp only [walkNode, hr1]
            simp only [Option.isSome_none, Bool.false_eq_true, or_self, if_false]
            rw [ih.1]
            simp [nodeCands, nodeDirs, hg, hd, Nat.add_assoc]
          · intro e
            simp only [walkNode, hr1]
            simp only [Option.isSome_none, Bool.false_eq_true, or_self, if_false]
            exact ih.2.1 e
          · intro _
            exact Or.inl rfl
        · have hd1 : maxD ≥ 0 ∧ getPathDepth p > maxD := by
            unfold depthOK at hd
            unfold getPathDepth
            omega
          refine ⟨?_, ?_, ?_⟩ <;>
            simp [walkNode, findWalkFn, handleDirectory, evaluateFile, nodeCands, nodeDirs,
              isDirNode, hg, hd, hd1.1, hd1.2]
    · have he : e = .permission := by
        simp only [nodePermOnly, Bool.and_eq_true, Bool.or_eq_true, decide_eq_true_eq] at hperm
        rcases hperm.1 with h | h
        · exact absurd h (by simp)
        · injection h
      subst he
      refine ⟨?_, ?_, ?_⟩ <;>
        simp [walkNode, findWalkFn, handleDirectory, nodeCands, nodeDirs, isDirNode]

/-- Master lemma, entry-list form: the enumeration loop over a directory's
entries (directory path `p`) adds the specification's counts, never returns
an error, and returns `SkipDir` only when the children's depth `|p| + 1`
exceeds the limit. -/
theorem walkList_perm (goos : String) (maxD : Int) (es : FSList) (p : List String)
    (st : WalkState) (hperm : listPermOnly es = true) :
    (walkList (findWalkFn goos maxD) p es st).1
        = { scanned := st.scanned + listDirs maxD p es
            found := st.found + (listCands goos maxD p es).length
            results := st.results ++ listCands goos maxD p es }
    ∧ (∀ e, (walkList (findWalkFn goos maxD) p es st).2 ≠ some (.fail e))
    ∧ ((walkList (findWalkFn goos maxD) p es st).2 = some .skipDir →
          maxD ≥ 0 ∧ (p.length : Int) + 1 > maxD) := by
  cases es with
  | nil => refine ⟨?_, ?_, ?_⟩ <;> simp [walkList, listDirs, listCands]
  | cons c rest =>
    have hpc : nodePermOnly c = true := by
      simp only [listPermOnly, Bool.and_eq_true] at hperm
      exact hperm.1
    have hpr : listPermOnly rest = true := by
      simp only [listPermOnly, Bool.and_eq_true] at hperm
      exact hperm.2
    cases c with
    | bad nm e =>
      have he : e = .permission := by
        simp only [nodePermOnly, decide_eq_true_eq] at hpc
        exact hpc
      subst he
      have hr : findWalkFn goos maxD (p ++ [nm]) none (some .permission) st
          = (st, some .skipDir) := by
        simp [findWalkFn, handleDirectory]
      have ih := walkList_perm goos maxD rest p st hpr
      refine ⟨?_, ?_, ?_⟩
      · simp only [walkList, hr]
        rw [ih.1]
        simp [listDirs, listCands, nodeCands, nodeDirs]
      · intro e
        simp only [walkList, hr]
        exact ih.2.1 e
      · simp only [walkList, hr]
        exact ih.2.2
    | file nm ex =>
      have h := walkNode_perm goos maxD (.file nm ex) (p ++ [nm]) st hpc
        (by intro a b hh; exact FSNode.noConfusion hh)
      rcases hs : (walkNode (findWalkFn goos maxD) (.file nm ex) (p ++ [nm]) st).2
        with _ | sig
      · have ih := walkList_perm goos maxD rest p
          (walkNode (findWalkFn goos maxD) (.file nm ex) (p ++ [nm]) st).1 hpr
        refine ⟨?_, ?_, ?_⟩
        · simp only [walkList, nodeName, hs]
          rw [ih.1, h.1]
          simp [listDirs, listCands, nodeDirs, nodeName_file, nodeName_dir, nodeName_bad, Nat.add_assoc, List.append_assoc]
        · intro e
          simp only [walkList, nodeName, hs]
          exact ih.2.1 e
        · simp only [walkList, nodeName, hs]
          exact ih.2.2
      · cases sig with
        | fail e => exact absurd hs (h.2.1 e)
        | skipDir =>
          have hdd : ¬ depthOK maxD (p ++ [nm]) := by
            rcases h.2.2 hs with h1 | h1
            · exact absurd h1 (by simp [isDirNode])
            · exact h1
          have hb : maxD ≥ 0 ∧ (p.length : Int) + 1 > maxD := by
            unfold depthOK at hdd
            simp only [List.length_append, List.length_cons, List.length_nil] at hdd
            omega
          refine ⟨?_, ?_, ?_⟩
          · simp only [walkList, nodeName, hs, isDirNode, Bool.false_eq_true, if_false]
            rw [h.1]
            simp [listDirs, listCands, nodeDirs, nodeName_file, nodeName_dir, nodeName_bad,
              nodeCands_deep goos maxD _ _ hdd,
              listCands_deep goos maxD p rest hb.1 hb.2,
              listDirs_deep maxD p rest hb.1 hb.2,
              nodeDirs_deep maxD _ _ hdd]
          · intro e
            simp only [walkList, nodeName, hs, isDirNode, Bool.false_eq_true, if_false]
            simp
          · intro _
            exact hb
    | dir dn drerr des =>
      have h := walkNode_perm goos maxD (.dir dn drerr des) (p ++ [dn]) st hpc
        (by intro a b hh; exact FSNode.noConfusion hh)
      have ih := walkList_perm goos maxD rest p
        (walkNode (findWalkFn goos maxD) (.dir dn drerr des) (p ++ [dn]) st).1 hpr
      rcases hs : (walkNode (findWalkFn goos maxD) (.dir dn drerr des) (p ++ [dn]) st).2
        with _ | sig
      · refine ⟨?_, ?_, ?_⟩
        · simp only [walkList, nodeName, hs]
          rw [ih.1, h.1]
          simp [listDirs, listCands, nodeName_dir, Nat.add_assoc, List.append_assoc]
        · intro e
          simp only [walkList, nodeName, hs]
          exact ih.2.1 e
        · simp only [walkList, nodeName, hs]
          exact ih.2.2
      · cases sig with
        | fail e => exact absurd hs (h.2.1 e)
        | skipDir =>
          refine ⟨?_, ?_, ?_⟩
          · simp only [walkList, nodeName, hs, isDirNode, if_true]
            rw [ih.1, h.1]
            simp [listDirs, listCands, nodeName_dir, Nat.add_assoc, List.append_assoc]
          · intro e
            simp only [walkList, nodeName, hs, isDirNode, if_true]
            exact ih.2.1 e
          · simp only [walkList, nodeName, hs, isDirNode, if_true]
            exact ih.2.2
end

end JFind

namespace JFind

mutual
/-- Soundness over arbitrary trees (read errors of any kind included): the
walk only ever appends result paths that satisfy the depth bound. -/
theorem walkNode_sound (goos : String) (maxD : Int) (node : FSNode) (p : List String)
    (st : WalkState) :
    ∀ q, q ∈ (walkNode (findWalkFn goos maxD) node p st).1.results →
      q ∈ st.results ∨ depthOK maxD q := by
  cases node with
  | bad nm e =>
    intro q hq
    exact Or.inl (by simpa [walkNode] using hq)
  | file n ex =>
    intro q hq
    by_cases hd : depthOK maxD p
    · have hd1 : ¬ (maxD ≥ 0 ∧ getPathDepth p > maxD) := (depthOK_iff maxD p).mp hd
      by_cases hj : isJavaExecutable n = true ∧ isExecutable goos ⟨n, false, ex⟩ = true
      · simp [walkNode, findWalkFn, handleDirectory, evaluateFile, hd1, hj.1, hj.2] at hq
        rcases hq with hq | hq
        · exact Or.inl hq
        · exact Or.inr (hq ▸ hd)
      · rcases Decidable.not_and_iff_or_not.mp hj with hj' | hj' <;>
          · simp [walkNode, findWalkFn, handleDirectory, evaluateFile, hd1, hj'] at hq
            exact Or.inl hq
    · have hd1 : maxD ≥ 0 ∧ getPathDepth p > maxD := by
        unfold depthOK at hd
        unfold getPathDepth
        omega
      simp [walkNode, findWalkFn, handleDirectory, hd1.1, hd1.2] at hq
      exact Or.inl hq
  | dir n rerr es =>
    intro q hq
    rcases rerr with _ | e
    · by_cases hg : n = ".git"
      · simp [walkNode, findWalkFn, handleDirectory, hg] at hq
        exact Or.inl hq
      · by_cases hd : depthOK maxD p
        · have hd1 : ¬ (maxD ≥ 0 ∧ getPathDepth p > maxD) := (depthOK_iff maxD p).mp hd
          have hr1 : findWalkFn goos maxD p (some ⟨n, true, false⟩) none st
              = ({ st with scanned := st.scanned + 1 }, none) := by
            simp [findWalkFn, handleDirectory, evaluateFile, hg, hd1]
          simp only [walkNode, hr1, Option.isSome_none, Bool.false_eq_true, or_self,
            if_false] at hq
          have := walkList_sound goos maxD es p
            { st with scanned := st.scanned + 1 } q hq
          simpa using this
        · have hd1 : maxD ≥ 0 ∧ getPathDepth p > maxD := by
            unfold depthOK at hd
            unfold getPathDepth
            omega
          simp [walkNode, findWalkFn, handleDirectory, hg, hd1.1, hd1.2] at hq
          exact Or.inl hq
    · rcases e with _ | _
      · simp [walkNode, findWalkFn, handleDirectory] at hq
        exact Or.inl hq
      · simp [walkNode, findWalkFn, handleDirectory] at hq
        exact Or.inl hq

/-- Soundness for the entry loop. -/
theorem walkList_sound (goos : String) (maxD : Int) (es : FSList) (p : List String)
    (st : WalkState) :
    ∀ q, q ∈ (walkList (findWalkFn goos maxD) p es st).1.results →
      q ∈ st.results ∨ depthOK maxD q := by
  cases es with
  | nil =>
    intro q hq
    exact Or.inl (by simpa [walkList] using hq)
  | cons c rest =>
    intro q hq
    cases c with
    | bad nm e =>
      rcases e with _ | _
      · have hr : findWalkFn goos maxD (p ++ [nm]) none (some .permission) st
            = (st, some .skipDir) := by
          simp [findWalkFn, handleDirectory]
        simp only [walkList, hr] at hq
        exact walkList_sound goos maxD rest p st q hq
      · have hr : findWalkFn goos maxD (p ++ [nm]) none (some .other) st
            = (st, some (.fail .other)) := by
          simp [findWalkFn, handleDirectory]
        simp only [walkList, hr] at hq
        exact Or.inl hq
    | file nm ex =>
      rcases hs : (walkNode (findWalkFn goos maxD) (.file nm ex) (p ++ [nm]) st).2
        with _ | sig
      · simp only [walkList, nodeName_file, hs] at hq
        rcases walkList_sound goos maxD rest p _ q hq with hq' | hq'
        · exact walkNode_sound goos maxD (.file nm ex) (p ++ [nm]) st q hq'
        · exact Or.inr hq'
      · cases sig with
        | skipDir =>
          simp only [walkList, nodeName_file, hs, isDirNode, Bool.false_eq_true,
            if_false] at hq
          exact walkNode_sound goos maxD (.file nm ex) (p ++ [nm]) st q hq
        | fail e =>
          simp only [walkList, nodeName_file, hs] at hq
          exact walkNode_sound goos maxD (.file nm ex) (p ++ [nm]) st q hq
    | dir dn drerr des =>
      rcases hs : (walkNode (findWalkFn goos maxD) (.dir dn drerr des) (p ++ [dn]) st).2
        with _ | sig
      · simp only [walkList, nodeName_dir, hs] at hq
        rcases walkList_sound goos maxD rest p _ q hq with hq' | hq'
        · exact walkNode_sound goos maxD (.dir dn drerr des) (p ++ [dn]) st q hq'
        · exact Or.inr hq'
      · cases sig with
        | skipDir =>
          simp only [walkList, nodeName_dir, hs, isDirNode, if_true] at hq
          rcases walkList_sound goos maxD rest p _ q hq with hq' | hq'
          · exact walkNode_sound goos maxD (.dir dn drerr des) (p ++ [dn]) st q hq'
          · exact Or.inr hq'
        | fail e =>
          simp only [walkList, nodeName_dir, hs] at hq
          exact walkNode_sound goos maxD (.dir dn drerr des) (p ++ [dn]) st q hq
end

end JFind

namespace JFind

mutual
/-- A clean tree has only (vacuously) permission errors. -/
theorem nodePermOnly_of_clean (node : FSNode) (h : nodeClean node = true) :
    nodePermOnly node = true := by
  cases node with
  | file n ex => rfl
  | bad nm e => simp [nodeClean] at h
  | dir n rerr es =>
    simp only [nodeClean, Bool.and_eq_true, decide_eq_true_eq] at h
    simp [nodePermOnly, h.1, listPermOnly_of_clean es h.2]

/-- A clean entry list has only permission errors. -/
theorem listPermOnly_of_clean (es : FSList) (h : listClean es = true) :
    listPermOnly es = true := by
  cases es with
  | nil => rfl
  | cons c rest =>
    simp only [listClean, Bool.and_eq_true] at h
    simp [listPermOnly, nodePermOnly_of_clean c h.1, listPermOnly_of_clean rest h.2]
end

/-- Members of a clean entry list are clean. -/
theorem nodeClean_of_mem {c : FSNode} {es : FSList} (hmem : FSMem c es)
    (h : listClean es = true) : nodeClean c = true := by
  induction hmem with
  | head rest =>
    simp only [listClean, Bool.and_eq_true] at h
    exact h.1
  | tail d rest hm ih =>
    simp only [listClean, Bool.and_eq_true] at h
    exact ih h.2

/-- A member's candidates are among its list's candidates. -/
theorem mem_listCands_of_mem {c : FSNode} {es : FSList} (hmem : FSMem c es)
    (goos : String) (maxD : Int) (p x : List String)
    (hx : x ∈ nodeCands goos maxD c (p ++ [nodeName c])) :
    x ∈ listCands goos maxD p es := by
  induction hmem with
  | head rest =>
    simp only [listCands, List.mem_append]
    exact Or.inl hx
  | tail d rest hm ih =>
    simp only [listCands, List.mem_append]
    exact Or.inr ih

/-- Completeness: a good file (reached through clean, non-`.git` directories)
that matches the target name and executability and lies within the depth
limit is among the specified candidates. -/
theorem goodFile_mem_nodeCands (goos : String) (maxD : Int) {node : FSNode}
    {rel : List String} {n : String} {ex : Bool}
    (hg : GoodFileAt node rel n ex) :
    ∀ base, nodeClean node = true → isJavaExecutable n = true →
      isExecutable goos ⟨n, false, ex⟩ = true → depthOK maxD (base ++ rel) →
      (base ++ rel) ∈ nodeCands goos maxD node base := by
  induction hg with
  | file n0 ex0 =>
    intro base hclean hj hx hd
    simp only [List.append_nil] at hd ⊢
    simp [nodeCands, hd, hj, hx]
  | dir d rerr es c rel0 n0 ex0 hgit hmem hgood ih =>
    intro base hclean hj hx hd
    simp only [nodeClean, Bool.and_eq_true, decide_eq_true_eq] at hclean
    have hdbase : depthOK maxD base := by
      unfold depthOK at hd ⊢
      simp only [List.length_append, List.length_cons] at hd
      omega
    have hcclean : nodeClean c = true := nodeClean_of_mem hmem hclean.2
    have hd2 : depthOK maxD ((base ++ [nodeName c]) ++ rel0) := by
      unfold depthOK at hd ⊢
      simp only [List.length_append, List.length_cons, List.length_nil] at hd ⊢
      omega
    have hmem2 : (base ++ [nodeName c]) ++ rel0 ∈ nodeCands goos maxD c (base ++ [nodeName c]) :=
      ih (base ++ [nodeName c]) hcclean hj hx hd2
    have heq : (base ++ [nodeName c]) ++ rel0 = base ++ nodeName c :: rel0 := by
      rw [List.append_assoc]
      rfl
    rw [heq] at hmem2
    have hfin := mem_listCands_of_mem hmem goos maxD base _ hmem2
    have hcand : nodeCands goos maxD (FSNode.dir d rerr es) base
        = listCands goos maxD base es := by
      simp [nodeCands, hgit, hdbase, hclean.1]
    rw [hcand]
    exact hfin

/-- `walkTop` on a root whose `Lstat` succeeds. -/
theorem walkTop_not_bad (fn : WalkFn) (root : FSNode) (h : ∀ nm e, root ≠ .bad nm e) :
    walkTop fn root
      = ((walkNode fn root [] ⟨0, 0, []⟩).1,
          match (walkNode fn root [] ⟨0, 0, []⟩).2 with
          | some (.fail e) => some e
          | _ => none) := by
  cases root with
  | bad nm e => exact absurd rfl (h nm e)
  | file n ex => rfl
  | dir n r es => rfl

/-- Shared helper: over permission-only trees, `Find` completes without error
and its final state is exactly the specification's counts and candidates. -/
theorem Find_perm_spec (goos : String) (maxD : Int) (root : FSNode)
    (h : nodePermOnly root = true) :
    (Find goos maxD root).1
        = { scanned := nodeDirs maxD root []
            found := (nodeCands goos maxD root []).length
            results := nodeCands goos maxD root [] }
    ∧ (Find goos maxD root).2 = none := by
  cases root with
  | bad nm e =>
    have he : e = .permission := by
      simp only [nodePermOnly, decide_eq_true_eq] at h
      exact h
    subst he
    constructor <;>
      simp [Find, walkTop, findWalkFn, handleDirectory, nodeCands, nodeDirs]
  | file n ex =>
    have hm := walkNode_perm goos maxD (.file n ex) [] ⟨0, 0, []⟩ h
      (by intro a b hh; exact FSNode.noConfusion hh)
    have hw := walkTop_not_bad (findWalkFn goos maxD) (.file n ex)
      (by intro a b hh; exact FSNode.noConfusion hh)
    constructor
    · show (walkTop (findWalkFn goos maxD) (.file n ex)).1 = _
      rw [hw]
      simp only
      rw [hm.1]
      simp
    · show (walkTop (findWalkFn goos maxD) (.file n ex)).2 = none
      rw [hw]
      simp only
      rcases hs : (walkNode (findWalkFn goos maxD) (.file n ex) [] ⟨0, 0, []⟩).2 with _ | sig
      · rfl
      · cases sig with
        | skipDir => rfl
        | fail e => exact absurd hs (hm.2.1 e)
  | dir n rerr es =>
    have hm := walkNode_perm goos maxD (.dir n rerr es) [] ⟨0, 0, []⟩ h
      (by intro a b hh; exact FSNode.noConfusion hh)
    have hw := walkTop_not_bad (findWalkFn goos maxD) (.dir n rerr es)
      (by intro a b hh; exact FSNode.noConfusion hh)
    constructor
    · show (walkTop (findWalkFn goos maxD) (.dir n rerr es)).1 = _
      rw [hw]
      simp only
      rw [hm.1]
      simp
    · show (walkTop (findWalkFn goos maxD) (.dir n rerr es)).2 = none
      rw [hw]
      simp only
      rcases hs : (walkNode (findWalkFn goos maxD) (.dir n rerr es) [] ⟨0, 0, []⟩).2 with _ | sig
      · rfl
      · cases sig with
        | skipDir => rfl
        | fail e => exact absurd hs (hm.2.1 e)

end JFind

namespace JFind

/-- C3: with a configured maximum depth, no reported candidate lies strictly
deeper than the maximum (over arbitrary trees, read errors included), and on
a clean tree every matching file at exactly the maximum depth is reported. -/
theorem depth_limit (goos : String) (maxD : Int) (root : FSNode) (h0 : 0 ≤ maxD) :
    (∀ p, p ∈ (Find goos maxD root).1.results → (p.length : Int) ≤ maxD)
    ∧ (nodeClean root = true →
        ∀ (p : List String) (n : String) (ex : Bool),
          GoodFileAt root p n ex → isJavaExecutable n = true →
          isExecutable goos ⟨n, false, ex⟩ = true → (p.length : Int) = maxD →
          p ∈ (Find goos maxD root).1.results) := by
  constructor
  · intro p hp
    cases root with
    | bad nm e =>
      rcases e with _ | _ <;> simp [Find, walkTop, findWalkFn, handleDirectory] at hp
    | file n ex =>
      have hw := walkTop_not_bad (findWalkFn goos maxD) (.file n ex)
        (by intro a b hh; exact FSNode.noConfusion hh)
      unfold Find at hp
      rw [hw] at hp
      dsimp only at hp
      rcases walkNode_sound goos maxD (.file n ex) [] ⟨0, 0, []⟩ p hp with h | h
      · simp at h
      · unfold depthOK at h
        omega
    | dir n rerr es =>
      have hw := walkTop_not_bad (findWalkFn goos maxD) (.dir n rerr es)
        (by intro a b hh; exact FSNode.noConfusion hh)
      unfold Find at hp
      rw [hw] at hp
      dsimp only at hp
      rcases walkNode_sound goos maxD (.dir n rerr es) [] ⟨0, 0, []⟩ p hp with h | h
      · simp at h
      · unfold depthOK at h
        omega
  · intro hclean p n ex hg hj hx hlen
    have hperm := nodePermOnly_of_clean root hclean
    have hd : depthOK maxD ([] ++ p) := by
      unfold depthOK
      simp only [List.nil_append]
      omega
    have hmem := goodFile_mem_nodeCands goos maxD hg [] hclean hj hx hd
    simp only [List.nil_append] at hmem
    rw [(Find_perm_spec goos maxD root hperm).1]
    exact hmem

/-- Witness for C3: a candidate at exactly the maximum depth (2) is reported. -/
theorem depth_limit_witness :
    ["sub", "java"] ∈ (Find "linux" 2 (FSNode.dir "r" none
        (FSList.cons (FSNode.dir "sub" none
          (FSList.cons (FSNode.file "java" true) FSList.nil)) FSList.nil))).1.results :=
  (depth_limit "linux" 2 _ (by decide)).2 (by decide) ["sub", "java"] "java" true
    (GoodFileAt.dir "r" none _ (FSNode.dir "sub" none
        (FSList.cons (FSNode.file "java" true) FSList.nil)) ["java"] "java" true
      (by decide) (FSMem.head _)
      (GoodFileAt.dir "sub" none _ (FSNode.file "java" true) [] "java" true
        (by decide) (FSMem.head _) (GoodFileAt.file "java" true)))
    (by decide) (by decide) (by decide)

/-- C6 as stated is false: a non-permission read error at one entry aborts
the whole walk (the callback returns the error), losing reachable candidates. -/
theorem walk_error_resilience_cex : ¬ claimC6Statement :=
  fun h =>
    absurd
      ((h "linux" (-1)
          (FSNode.dir "r" none (FSList.cons (FSNode.bad "x" GoErr.other)
            (FSList.cons (FSNode.file "java" true) FSList.nil))) (by decide)).1)
      (by decide)

/-- C6 amended: a permission-denied error (at a directory read or an entry
stat) prunes that subtree and the walk continues, returning all reachable
candidates; but any other read error aborts the walk as its error.  This
theorem proves the retained universal half: on trees whose read errors are
all permission errors the walk completes errorlessly with exactly the
reachable candidates (the counterexample shows the aborting half). -/
theorem walk_error_resilience (goos : String) (maxD : Int) (root : FSNode)
    (h : nodePermOnly root = true) :
    (Find goos maxD root).2 = none
    ∧ (Find goos maxD root).1.results = nodeCands goos maxD root [] :=
  ⟨(Find_perm_spec goos maxD root h).2, by rw [(Find_perm_spec goos maxD root h).1]⟩

/-- Witness for C6's amended statement: a tree with one permission-denied
subdirectory still yields the sibling candidate without error. -/
theorem walk_error_resilience_witness :
    (Find "linux" (-1) (FSNode.dir "r" none
        (FSList.cons (FSNode.dir "denied" (some GoErr.permission)
          (FSList.cons (FSNode.file "java" true) FSList.nil))
        (FSList.cons (FSNode.file "java" true) FSList.nil)))).2 = none
    ∧ (Find "linux" (-1) (FSNode.dir "r" none
        (FSList.cons (FSNode.dir "denied" (some GoErr.permission)
          (FSList.cons (FSNode.file "java" true) FSList.nil))
        (FSList.cons (FSNode.file "java" true) FSList.nil)))).1.results
      = nodeCands "linux" (-1) (FSNode.dir "r" none
        (FSList.cons (FSNode.dir "denied" (some GoErr.permission)
          (FSList.cons (FSNode.file "java" true) FSList.nil))
        (FSList.cons (FSNode.file "java" true) FSList.nil))) [] :=
  walk_error_resilience "linux" (-1) _ (by decide)

/-- C7 as stated is false: the counter is incremented only after the
depth-pruning decision, so a directory opened and then pruned for depth is
not counted.  With `maxDepth = 0`, a root with one subdirectory opens two
directories but counts one. -/
theorem scanned_counter_cex : ¬ claimC7Statement :=
  fun h =>
    absurd
      (h "linux" 0
        (FSNode.dir "r" none (FSList.cons (FSNode.dir "a" none FSList.nil) FSList.nil))
        (by decide))
      (by decide)

/-- C7 amended: the `scanned` counter is incremented only after the error,
`.git` and depth checks, so at the end of the walk it counts exactly the
directories that passed those checks — directories pruned for depth (or
`.git`, or unreadable ones) are opened but not counted. -/
theorem scanned_counter (goos : String) (maxD : Int) (root : FSNode)
    (h : nodePermOnly root = true) :
    (Find goos maxD root).1.scanned = nodeDirs maxD root [] := by
  rw [(Find_perm_spec goos maxD root h).1]

/-- Witness for C7's amended statement at the counterexample tree. -/
theorem scanned_counter_witness :
    (Find "linux" 0 (FSNode.dir "r" none
        (FSList.cons (FSNode.dir "a" none FSList.nil) FSList.nil))).1.scanned
      = nodeDirs 0 (FSNode.dir "r" none
        (FSList.cons (FSNode.dir "a" none FSList.nil) FSList.nil)) [] :=
  scanned_counter "linux" 0 _ (by decide)

/-- C8 as stated is false: the current name test lowercases the name and
accepts both spellings on every platform, so `"JAVA"` (differing only in
case) is a candidate on Linux. -/
theorem candidate_name_cex : ¬ claimC8Statement :=
  fun h => absurd ((h "linux" [] "JAVA" false true).mp (by decide)) (by decide)

/-- C8 amended: an entry is a candidate exactly when it is a non-directory
whose lowercased base name is `"java"` or `"java.exe"` (case-insensitively,
with no platform distinction in the name) and which passes the platform's
executability test. -/
theorem candidate_name (goos : String) (p : List String) (name : String)
    (isdir ex : Bool) :
    (evaluateFile goos p (some ⟨name, isdir, ex⟩)).isSome = true
      ↔ (isdir = false ∧ (goToLower name = "java" ∨ goToLower name = "java.exe")
          ∧ isExecutable goos ⟨name, isdir, ex⟩ = true) := by
  simp only [evaluateFile, isJavaExecutable, Bool.or_eq_true, beq_iff_eq]
  split
  · rename_i hcond
    obtain ⟨h1, h2, h3⟩ := hcond
    subst h1
    simp [h2, h3]
  · rename_i hcond
    simp [hcond]

/-- The superseded revision diverges from the current one exactly where
claims C3 and C8 probe: with `maxDepth = 0` it reports the depth-1 candidate
the current walker skips, and its name test is case-sensitive. -/
theorem revision_divergence :
    (Find_main "linux" 0 (FSNode.dir "r" none
        (FSList.cons (FSNode.file "java" true) FSList.nil))).1.results = [["java"]]
    ∧ (Find "linux" 0 (FSNode.dir "r" none
        (FSList.cons (FSNode.file "java" true) FSList.nil))).1.results = []
    ∧ isJavaExecutable "JAVA" = true
    ∧ isJavaExecutable_main "linux" "JAVA" = false :=
  ⟨by decide, by decide, by decide, by decide⟩

end JFind
